import Mathlib

/-!
Verification of the ginkgo-outline core against its specification.

The development shallowly embeds the two source modules that carry the
logic of the program:

* `src/outliner.ts` — the node-tree builder (`fromJSON`, `preOrder`),
  and the error classifier `isGinkgoImportsNotFoundError`;
* `src/treeDataProvider.ts` — the outline cache / fetch policy
  (`getChildren`), the change-triggering policy (`setUpdateOn`,
  `onDocumentChanged`, `onDocumentSaved`, `onActiveEditorChanged`) and
  the click-disambiguation machine (`clickTreeItem`,
  `wasRecentlyClicked`);
* `src/symbolPicker.ts` — the quick-pick presenter (`fromTextEditor`),
  at the interface level.

Reference semantics of the JavaScript heap: `fromJSON` pushes every
visited node exactly once, in pre-order, onto the `flat` array, so a
node object is identified with its pre-order index.  The embedding makes
that identification explicit: the built outline is an arena — the `flat`
list of entries — and the mutable object fields `nodes` (children) and
`parent` become lists of arena indices / an optional arena index.
Reference equality of node objects is index equality in the arena.

Timers and events (`setTimeout`, document events) are embedded as an
explicit event trace processed by a step function; a pending debounce
timer is the absolute time at which its callback will run.
-/

/-! ## outliner.ts: data model -/

/-- The scalar metadata fields of a `GinkgoNode` record
(`name,text,start,end,spec,focused,pending`), as produced by the
external `ginkgo outline --format=json` process. -/
structure NodeData where
  name : String
  text : String
  start : Nat
  «end» : Nat
  spec : Bool
  focused : Bool
  pending : Bool
deriving DecidableEq

/-- A raw node record of the parsed JSON array handed to `fromJSON`.
`nodes` is `none` when the record has no `nodes` field (or it is
`null`), and `some cs` when the field holds the (possibly empty) array
`cs` of child records. -/
inductive RawNode : Type where
  | mk (data : NodeData) (nodes : Option (List RawNode))

/-- Scalar data of a raw record. -/
def RawNode.data : RawNode → NodeData
  | .mk d _ => d

/-- The `nodes` field of a raw record. -/
def RawNode.nodes : RawNode → Option (List RawNode)
  | .mk _ ns => ns

mutual
/-- Number of records in the subtree rooted at a record (the record and
all of its descendants). -/
def sizeR : RawNode → Nat
  | .mk _ none => 1
  | .mk _ (some cs) => 1 + sizeF cs
/-- Total number of records across a forest of records. -/
def sizeF : List RawNode → Nat
  | [] => 0
  | c :: cs => sizeR c + sizeF cs
end

mutual
/-- `preOrder` of outliner.ts, instantiated with a collecting callback:
the list of nodes visited by `preOrder(node, f)` in visitation order.
The source guards the recursion with `if (node.nodes)`, so a record
without a `nodes` field is itself visited but contributes no children. -/
def preOrderN : RawNode → List RawNode
  | .mk d none => [.mk d none]
  | .mk d (some cs) => .mk d (some cs) :: preOrderF cs
/-- Pre-order visitation of a forest, one `preOrder` call per root. -/
def preOrderF : List RawNode → List RawNode
  | [] => []
  | c :: cs => preOrderN c ++ preOrderF cs
end

/-- An entry of the built arena: one `GinkgoNode` object after
`fromJSON` has run.  `nodes` holds the arena indices of the direct
children, `parent` the arena index of the parent object (as assigned by
the `c.parent = n` mutation), `none` for roots. -/
structure Entry where
  data : NodeData
  nodes : List Nat
  parent : Option Nat
deriving DecidableEq

/-- Arena indices of the roots of a forest of consecutive subtrees whose
first subtree starts at index `j`: each subtree of size `s` occupies `s`
consecutive indices. -/
def childIdxs : Nat → List RawNode → List Nat
  | _, [] => []
  | j, c :: cs => j :: childIdxs (j + sizeR c) cs

mutual
/-- The traversal performed by `fromJSON` on one root, producing the
arena segment of its subtree.  `i` is the arena index the visited node
receives (its pre-order position), `p` the already-assigned `parent`
index.  The callback of `fromJSON` runs `for (let c of n.nodes)`
without the `if (node.nodes)` guard that `preOrder` itself uses, so a
record whose `nodes` field is absent raises a `TypeError`
(`.error ()`). -/
def buildN (p : Option Nat) (i : Nat) : RawNode → Except Unit (List Entry)
  | .mk _ none => .error ()
  | .mk d (some cs) =>
    match buildF (some i) (i + 1) cs with
    | .error e => .error e
    | .ok rest => .ok ({ data := d, nodes := childIdxs (i + 1) cs, parent := p } :: rest)
/-- Traversal of a list of sibling records, concatenating their arena
segments; the segment of the next sibling starts where the previous
subtree ends. -/
def buildF (p : Option Nat) (i : Nat) : List RawNode → Except Unit (List Entry)
  | [] => .ok []
  | c :: cs =>
    match buildN p i c with
    | .error e => .error e
    | .ok l1 =>
      match buildF p (i + sizeR c) cs with
      | .error e => .error e
      | .ok l2 => .ok (l1 ++ l2)
end

/-- Output of the builder: `nested` holds the arena indices of the root
objects, `flat` is the arena itself — the flat pre-order list the
source pushes every visited node onto.  Both source views share the
same objects; here sharing is by index. -/
structure Outline where
  nested : List Nat
  flat : List Entry
deriving DecidableEq

/-- `fromJSON` of outliner.ts, applied to the already-parsed JSON array
`rs` (malformed-JSON failures of `JSON.parse` are outside this model).
It runs `preOrder` on each root with the callback that appends the node
to `flat` and assigns `c.parent = n` to each direct child. -/
def fromJSON (rs : List RawNode) : Except Unit Outline :=
  match buildF none 0 rs with
  | .error e => .error e
  | .ok flat => .ok { nested := childIdxs 0 rs, flat := flat }

/-! ## outliner.ts: the framework-not-found diagnostic -/

/-- The recognized diagnostic text (`ginkgoImportsNotFoundError`). -/
def ginkgoImportsNotFoundError : String :=
  "error creating outline: file does not import \"github.com/onsi/ginkgo\" or \"github.com/onsi/ginkgo/extensions/table\""

/-- `String.prototype.indexOf` of JavaScript: index of the first
occurrence of `pat` in the string, `-1` when there is none. -/
def strIndexOfAux (pat : List Char) : List Char → Nat → Int
  | [], i => if pat.isPrefixOf [] then (i : Int) else -1
  | c :: t, i => if pat.isPrefixOf (c :: t) then (i : Int) else strIndexOfAux pat t (i + 1)

/-- JavaScript `s.indexOf(pat)`. -/
def strIndexOf (s pat : String) : Int :=
  strIndexOfAux pat.data s.data 0

/-- An `Error` value as far as the classifier is concerned: its
`message`, which may be absent (`undefined`). -/
abbrev GinkgoError := Option String

/-- `isGinkgoImportsNotFoundError` of outliner.ts.  The source first
rejects a falsy `message` (absent or the empty string), then returns
`err.message.indexOf(ginkgoImportsNotFoundError) > 0` — note the strict
`> 0`, not `>= 0` or `!== -1`. -/
def isGinkgoImportsNotFoundError (message : GinkgoError) : Bool :=
  match message with
  | none => false
  | some m =>
    if m = "" then false
    else decide (0 < strIndexOf m ginkgoImportsNotFoundError)

/-! ## treeDataProvider.ts: data model -/

/-- The `updateOn` configuration value. -/
inductive UpdateOn : Type where
  | onSave
  | onType
deriving DecidableEq

/-- A text document, reduced to the fields the provider reads:
`uri.toString()` and `languageId`. -/
structure Doc where
  uri : String
  languageId : String
deriving DecidableEq

/-- A text editor: its document and its `viewColumn`, which is
`undefined` (`none`) for non-main editors such as embedded diff or
settings editors. -/
structure Editor where
  document : Doc
  viewColumn : Option Nat
deriving DecidableEq

/-- A `GinkgoNode` object as consumed by the tree data provider (the
output of the builder, here with its children inline).  The `parent`
back-reference is not read by any provider code modelled here and is
omitted. -/
inductive GinkgoNode : Type where
  | mk (name text : String) (start «end» : Nat) (spec focused pending : Bool)
      (nodes : List GinkgoNode)

/-- The `start` offset of a node. -/
def GinkgoNode.start : GinkgoNode → Nat
  | .mk _ _ s _ _ _ _ _ => s

/-- The `end` offset of a node. -/
def GinkgoNode.«end» : GinkgoNode → Nat
  | .mk _ _ _ e _ _ _ _ => e

/-- The `nodes` (children) of a node. -/
def GinkgoNode.nodes : GinkgoNode → List GinkgoNode
  | .mk _ _ _ _ _ _ _ ns => ns

/-- The `Outline` interface as the provider consumes it: the root list
and the flat pre-order list. -/
structure VOutline where
  nested : List GinkgoNode
  flat : List GinkgoNode

/-- The mutable fields of class `TreeDataProvider`.  `documentChangedTimer`
is the pending debounce timer, represented by the absolute time at which
its callback will fire; `updateListener` is the currently-subscribed
document event stream (`onDidChangeTextDocument` for `onType`,
`onDidSaveTextDocument` for `onSave`), `none` when disposed. -/
structure ProviderState where
  editor : Option Editor
  roots : List GinkgoNode
  lastClickedNode : Option GinkgoNode
  lastClickedTime : Option Int
  documentChangedTimer : Option Nat
  updateListener : Option UpdateOn
  updateOnTypeDelay : Nat
  doubleClickThreshold : Int

/-- `isMainEditor` of treeDataProvider.ts: `editor.viewColumn !== undefined`. -/
def isMainEditor (editor : Editor) : Bool :=
  editor.viewColumn.isSome

/-- `onActiveEditorChanged`: a defined non-main editor is ignored
entirely; any other change (including to no editor) re-binds the
editor, clears the cached roots and fires the refresh event.  The
`Bool` result records whether `_onDidChangeTreeData.fire` ran. -/
def onActiveEditorChanged (s : ProviderState) (editor : Option Editor) :
    ProviderState × Bool :=
  match editor with
  | some e =>
    if !isMainEditor e then (s, false)
    else ({ s with editor := some e, roots := [] }, true)
  | none => ({ s with editor := none, roots := [] }, true)

/-- `isDocumentForActiveEditor`: URI equality with the document of the active editor. -/
def isDocumentForActiveEditor (s : ProviderState) (uri : String) : Bool :=
  match s.editor with
  | none => false
  | some ed => ed.document.uri == uri

/-- `onDocumentChanged` handling one `TextDocumentChangeEvent` arriving
at time `now`: events for other documents and events with zero content
changes are ignored; a qualifying edit clears the cache, cancels any
pending debounce timer (`clearTimeout`) and schedules a fresh one
`updateOnTypeDelay` later. -/
def onDocumentChanged (s : ProviderState) (uri : String)
    (numContentChanges : Nat) (now : Nat) : ProviderState :=
  if !isDocumentForActiveEditor s uri then s
  else if numContentChanges == 0 then s
  else { s with roots := [], documentChangedTimer := some (now + s.updateOnTypeDelay) }

/-- `onDocumentSaved`: for the active document, clear the cache and fire
the refresh event immediately; the `Bool` records whether it fired. -/
def onDocumentSaved (s : ProviderState) (uri : String) : ProviderState × Bool :=
  if !isDocumentForActiveEditor s uri then (s, false)
  else ({ s with roots := [] }, true)

/-- `setUpdateOn`: dispose the previous event subscription and install
the one selected by the mode.  The source does not touch
`documentChangedTimer` here — a pending debounce timer survives the
switch. -/
def setUpdateOn (s : ProviderState) (updateOn : UpdateOn) : ProviderState :=
  { s with updateListener := some updateOn }

/-! ### Event traces

The single-threaded event loop is embedded as a trace of timed inputs.
Before an input at time `t` is handled, a pending `setTimeout` callback
whose deadline has passed runs first; at the end of the trace a still
pending callback eventually runs at its deadline.  Each fired refresh
notification is recorded by the time at which it fires. -/

/-- An input to the event listeners of the provider. -/
inductive DocEvent : Type where
  | change (uri : String) (numContentChanges : Nat) (t : Nat)
  | save (uri : String) (t : Nat)
  | configure (updateOn : UpdateOn) (t : Nat)

/-- Whether an event is a document-change event. -/
def DocEvent.isChange : DocEvent → Bool
  | .change _ _ _ => true
  | _ => false

/-- Run the pending debounce callback if its deadline has been reached by
time `t`: it fires `_onDidChangeTreeData.fire(undefined)` at its
deadline. -/
def fireTimerIfDue (s : ProviderState) (t : Nat) : ProviderState × List Nat :=
  match s.documentChangedTimer with
  | some d => if d ≤ t then ({ s with documentChangedTimer := none }, [d]) else (s, [])
  | none => (s, [])

/-- Deliver one input: the due timer callback runs first, then the event
is dispatched to the listener that is currently subscribed (change
events reach `onDocumentChanged` only under `onType`, save events reach
`onDocumentSaved` only under `onSave`); a `configure` input is a call to
`setUpdateOn`. -/
def stepEvent (s : ProviderState) : DocEvent → ProviderState × List Nat
  | .change uri n t =>
    let r := fireTimerIfDue s t
    if r.1.updateListener = some .onType then (onDocumentChanged r.1 uri n t, r.2)
    else r
  | .save uri t =>
    let r := fireTimerIfDue s t
    if r.1.updateListener = some .onSave then
      let r2 := onDocumentSaved r.1 uri
      (r2.1, r.2 ++ (if r2.2 then [t] else []))
    else r
  | .configure m t =>
    let r := fireTimerIfDue s t
    (setUpdateOn r.1 m, r.2)

/-- A debounce timer still pending at the end of the trace fires at its
deadline. -/
def flushTimer (s : ProviderState) : ProviderState × List Nat :=
  match s.documentChangedTimer with
  | some d => ({ s with documentChangedTimer := none }, [d])
  | none => (s, [])

/-- Process a trace of inputs, collecting every refresh notification
(with the time it fires) in order. -/
def runEvents (s : ProviderState) : List DocEvent → ProviderState × List Nat
  | [] => flushTimer s
  | e :: es =>
    let r1 := stepEvent s e
    let r2 := runEvents r1.1 es
    (r2.1, r1.2 ++ r2.2)

/-! ## treeDataProvider.ts: getChildren (outline cache and fetch policy) -/

/-- Outcome of one `getChildren` request. `result` is the value returned
to the tree view (`none` = `undefined`); `parserInvoked` records whether
`outlineFromDoc` was called, `errorNotificationShown` whether
`vscode.window.showErrorMessage` ran. -/
structure GetChildrenResult where
  state : ProviderState
  result : Option (List GinkgoNode)
  parserInvoked : Bool
  errorNotificationShown : Bool

/-- `getChildren`: no active editor or a non-Go document yield
`undefined` without fetching; an empty `roots` cache triggers exactly
one fetch whose failure is logged, surfaced as an error notification
and answered with `undefined` (the cache left empty); otherwise the
request is answered from `roots` (root request) or `element.nodes`.
`fetch` is the outcome of `await this.outlineFromDoc(document)` for the
active document. -/
def getChildren (s : ProviderState) (element : Option GinkgoNode)
    (fetch : Except GinkgoError VOutline) : GetChildrenResult :=
  match s.editor with
  | none => ⟨s, none, false, false⟩
  | some ed =>
    if ed.document.languageId != "go" then ⟨s, none, false, false⟩
    else if s.roots.length == 0 then
      match fetch with
      | .error _ => ⟨s, none, true, true⟩
      | .ok outline =>
        let s1 := { s with roots := outline.nested }
        ⟨s1, (match element with
              | none => some s1.roots
              | some e => some e.nodes), true, false⟩
    else
      ⟨s, (match element with
           | none => some s.roots
           | some e => some e.nodes), false, false⟩

/-! ## treeDataProvider.ts: click disambiguation -/

/-- The two classifications of a tree-item activation and their side
effects: `highlight` marks the source range of the node, `navigate` moves the
selection to the start offset of the node and clears the highlight. -/
inductive ClickEffect : Type where
  | highlight
  | navigate
deriving DecidableEq

/-- `wasRecentlyClicked` of treeDataProvider.ts: same node by value
equality of `(start, end)`, and strictly less than `threshold`
milliseconds elapsed. -/
def wasRecentlyClicked (threshold : Int) (lastClickedNode : GinkgoNode)
    (lastClickedTime : Int) (currentNode : GinkgoNode) (currentTime : Int) : Bool :=
  let isSameNode := lastClickedNode.start == currentNode.start
    && lastClickedNode.«end» == currentNode.«end»
  let recent := decide (currentTime - lastClickedTime < threshold)
  isSameNode && recent

/-- `clickTreeItem` at time `now` (`Date.now()`): without an editor it
returns without effect; otherwise it classifies the activation, then
unconditionally records the current node and time.  The source guards
with `if (this.lastClickedTime && this.lastClickedNode)`, a JavaScript
truthiness test: a recorded time of `0` is falsy and counts as no prior
activation. -/
def clickTreeItem (s : ProviderState) (element : GinkgoNode) (now : Int) :
    ProviderState × Option ClickEffect :=
  match s.editor with
  | none => (s, none)
  | some _ =>
    let recentlyClicked :=
      match s.lastClickedTime, s.lastClickedNode with
      | some t, some n =>
        t != 0 && wasRecentlyClicked s.doubleClickThreshold n t element now
      | _, _ => false
    let s1 := { s with lastClickedTime := some now, lastClickedNode := some element }
    (s1, some (if recentlyClicked then .navigate else .highlight))

/-! ## Fetch wrapper and quick-pick presenter -/

/-- Modelled from the spec: the `outlineFromDoc` function that
extension.ts injects into the provider and the quick pick is not under
src/.  Per §6 (a specific recognized failure message means the file
does not opt into the structural-test framework and must be
distinguishable from generic failures so callers can choose not to show
it as an error, treating it as nothing to outline), §7
(*FrameworkNotDetected* is surfaced as "no outline available") and §8
(framework-not-found → cache stays empty, no error notification,
presenters empty), the wrapper turns a parser failure recognized by
`isGinkgoImportsNotFoundError` into a successful empty outline and
propagates every other failure. -/
def outlineFromDocSpec (parserResult : Except GinkgoError VOutline) :
    Except GinkgoError VOutline :=
  match parserResult with
  | .ok o => .ok o
  | .error e =>
    if isGinkgoImportsNotFoundError e then .ok ⟨[], []⟩ else .error e

/-- `fromTextEditor` of symbolPicker.ts, reduced to the quick-pick item
list it displays: a non-Go document shows an empty quick pick; a fetch
failure propagates as an exception (`none`, nothing displayed);
otherwise one item per element of `out.flat`, in order. -/
def fromTextEditor (editor : Editor) (fetch : Except GinkgoError VOutline) :
    Option (List GinkgoNode) :=
  if editor.document.languageId != "go" then some []
  else
    match fetch with
    | .error _ => none
    | .ok out => some out.flat

/-- Correctness of an arena segment built at base index `i` with
ambient parent `p`, where `tops` lists the arena indices of the
top-level subtree roots of the segment: (1) every top-level index holds an
entry whose `parent` is `p`; (2) every entry is top-level or has a
`parent` pointing strictly earlier inside the segment at an entry whose
children contain it exactly once; (3) every children pointer stays
inside the segment, points strictly forward, and the `parent` of the child
points back at the entry. -/
def SegOK (i : Nat) (p : Option Nat) (tops : List Nat) (l : List Entry) : Prop :=
  (∀ j ∈ tops, ∃ e, l[j - i]? = some e ∧ e.parent = p) ∧
  (∀ off e, l[off]? = some e →
    ((i + off) ∈ tops ∧ e.parent = p) ∨
    (∃ q pe, e.parent = some q ∧ i ≤ q ∧ q < i + off ∧ l[q - i]? = some pe ∧
      List.count (i + off) pe.nodes = 1)) ∧
  (∀ off e, l[off]? = some e → ∀ j ∈ e.nodes,
    i + off < j ∧ j < i + l.length ∧
    ∃ ce, l[j - i]? = some ce ∧ ce.parent = some (i + off))

/-- Refresh notifications a pending debounce timer alone will still
produce: one at its deadline when pending, none otherwise. -/
def pendingFires : Option Nat → List Nat
  | some d => [d]
  | none => []

/-- Spacing of a run of edits relative to the previous edit time: each
listed time is no earlier than its predecessor and strictly less than
one debounce delay after it. -/
def spacedEdits (delay : Nat) : Nat → List Nat → Bool
  | _, [] => true
  | prev, t :: ts => (decide (prev ≤ t) && decide (t < prev + delay)) && spacedEdits delay t ts

/-- A run of change events for document `uri`: one event per
`(time, contentChangeCount)` pair. -/
def editEvents (uri : String) (ps : List (Nat × Nat)) : List DocEvent :=
  ps.map fun p => .change uri p.2 p.1

/-! ## Builder lemmas -/

theorem sizeR_pos (n : RawNode) : 1 ≤ sizeR n := by
  cases n with
  | mk d ns => cases ns <;> simp [sizeR]

theorem sizeF_cons (c : RawNode) (cs : List RawNode) :
    sizeF (c :: cs) = sizeR c + sizeF cs := rfl

theorem mem_childIdxs_ge {j : Nat} :
    ∀ {i : Nat} {cs : List RawNode}, j ∈ childIdxs i cs → i ≤ j := by
  intro i cs
  induction cs generalizing i with
  | nil => simp [childIdxs]
  | cons c cs ih =>
    intro h
    simp only [childIdxs, List.mem_cons] at h
    rcases h with h | h
    · omega
    · have := ih h; omega

theorem mem_childIdxs_lt {j : Nat} :
    ∀ {i : Nat} {cs : List RawNode}, j ∈ childIdxs i cs → j < i + sizeF cs := by
  intro i cs
  induction cs generalizing i with
  | nil => simp [childIdxs]
  | cons c cs ih =>
    intro h
    simp only [childIdxs, List.mem_cons] at h
    have hc := sizeR_pos c
    rcases h with h | h
    · simp only [sizeF_cons]; omega
    · have := ih h; simp only [sizeF_cons]; omega

theorem childIdxs_pairwise :
    ∀ (i : Nat) (cs : List RawNode), List.Pairwise (· < ·) (childIdxs i cs) := by
  intro i cs
  induction cs generalizing i with
  | nil => simp [childIdxs]
  | cons c cs ih =>
    simp only [childIdxs, List.pairwise_cons]
    refine ⟨fun j hj => ?_, ih _⟩
    have := mem_childIdxs_ge hj
    have := sizeR_pos c
    omega

theorem childIdxs_count_eq_one {j i : Nat} {cs : List RawNode}
    (h : j ∈ childIdxs i cs) : List.count j (childIdxs i cs) = 1 :=
  List.count_eq_one_of_mem (childIdxs_pairwise i cs).nodup h

mutual
theorem buildN_length : ∀ (p : Option Nat) (i : Nat) (n : RawNode) (l : List Entry),
    buildN p i n = .ok l → l.length = sizeR n
  | _, _, .mk _ none, _, h => by simp [buildN] at h
  | p, i, .mk d (some cs), l, h => by
    rw [buildN] at h
    cases hf : buildF (some i) (i + 1) cs with
    | error e => rw [hf] at h; cases h
    | ok rest =>
      rw [hf] at h
      cases h
      have := buildF_length (some i) (i + 1) cs rest hf
      simp [sizeR, this]
      omega
theorem buildF_length : ∀ (p : Option Nat) (i : Nat) (cs : List RawNode) (l : List Entry),
    buildF p i cs = .ok l → l.length = sizeF cs
  | _, _, [], l, h => by
    simp only [buildF, Except.ok.injEq] at h
    simp [← h, sizeF]
  | p, i, c :: cs, l, h => by
    rw [buildF] at h
    cases h1 : buildN p i c with
    | error e => rw [h1] at h; cases h
    | ok l1 =>
      rw [h1] at h
      cases h2 : buildF p (i + sizeR c) cs with
      | error e => rw [h2] at h; cases h
      | ok l2 =>
        rw [h2] at h
        cases h
        have e1 := buildN_length p i c l1 h1
        have e2 := buildF_length p (i + sizeR c) cs l2 h2
        simp [sizeF, e1, e2]
end

mutual
/-- Data sequence of the arena segment of one subtree: the pre-order
data sequence computed by the `preOrder` function of the source itself. -/
theorem buildN_data : ∀ (p : Option Nat) (i : Nat) (n : RawNode) (l : List Entry),
    buildN p i n = .ok l → l.map Entry.data = (preOrderN n).map RawNode.data
  | _, _, .mk _ none, _, h => by simp [buildN] at h
  | p, i, .mk d (some cs), l, h => by
    rw [buildN] at h
    cases hf : buildF (some i) (i + 1) cs with
    | error e => rw [hf] at h; cases h
    | ok rest =>
      rw [hf] at h
      cases h
      have := buildF_data (some i) (i + 1) cs rest hf
      simp [preOrderN, RawNode.data, this]
theorem buildF_data : ∀ (p : Option Nat) (i : Nat) (cs : List RawNode) (l : List Entry),
    buildF p i cs = .ok l → l.map Entry.data = (preOrderF cs).map RawNode.data
  | _, _, [], l, h => by
    simp only [buildF, Except.ok.injEq] at h
    simp [← h, preOrderF]
  | p, i, c :: cs, l, h => by
    rw [buildF] at h
    cases h1 : buildN p i c with
    | error e => rw [h1] at h; cases h
    | ok l1 =>
      rw [h1] at h
      cases h2 : buildF p (i + sizeR c) cs with
      | error e => rw [h2] at h; cases h
      | ok l2 =>
        rw [h2] at h
        cases h
        have e1 := buildN_data p i c l1 h1
        have e2 := buildF_data p (i + sizeR c) cs l2 h2
        simp [preOrderF, e1, e2]
end

mutual
theorem buildN_segOK : ∀ (p : Option Nat) (i : Nat) (n : RawNode) (l : List Entry),
    buildN p i n = .ok l → SegOK i p [i] l
  | _, _, .mk _ none, _, h => by simp [buildN] at h
  | p, i, .mk d (some cs), l, h => by
    rw [buildN] at h
    cases hf : buildF (some i) (i + 1) cs with
    | error e => rw [hf] at h; cases h
    | ok rest =>
      rw [hf] at h
      cases h
      have ih := buildF_segOK (some i) (i + 1) cs rest hf
      have hlen := buildF_length (some i) (i + 1) cs rest hf
      obtain ⟨ih1, ih2, ih3⟩ := ih
      refine ⟨?_, ?_, ?_⟩
      · intro j hj
        simp only [List.mem_singleton] at hj
        rw [hj]
        refine ⟨{ data := d, nodes := childIdxs (i + 1) cs, parent := p }, ?_, rfl⟩
        simp
      · intro off e he
        cases off with
        | zero =>
          simp only [List.getElem?_cons_zero, Option.some.injEq] at he
          subst he
          exact Or.inl ⟨by simp, rfl⟩
        | succ off =>
          simp only [List.getElem?_cons_succ] at he
          rcases ih2 off e he with ⟨hmem, hpar⟩ | ⟨q, pe, hpar, hq1, hq2, hget, hcnt⟩
          · refine Or.inr ⟨i, { data := d, nodes := childIdxs (i + 1) cs, parent := p },
              hpar, le_refl i, by omega, by simp, ?_⟩
            have hn : i + (off + 1) = (i + 1) + off := by omega
            rw [hn]
            exact childIdxs_count_eq_one hmem
          · refine Or.inr ⟨q, pe, hpar, by omega, by omega, ?_, ?_⟩
            · have hqi : q - i = (q - (i + 1)) + 1 := by omega
              rw [hqi, List.getElem?_cons_succ]
              exact hget
            · have hn : i + (off + 1) = (i + 1) + off := by omega
              rw [hn]
              exact hcnt
      · intro off e he j hj
        cases off with
        | zero =>
          simp only [List.getElem?_cons_zero, Option.some.injEq] at he
          subst he
          simp only [Entry.nodes] at hj
          have hge := mem_childIdxs_ge hj
          have hlt := mem_childIdxs_lt hj
          refine ⟨by omega, ?_, ?_⟩
          · simp only [List.length_cons]
            omega
          · obtain ⟨ce, hce, hcp⟩ := ih1 j hj
            have hji : j - i = (j - (i + 1)) + 1 := by omega
            rw [hji, List.getElem?_cons_succ]
            exact ⟨ce, hce, by simpa using hcp⟩
        | succ off =>
          simp only [List.getElem?_cons_succ] at he
          obtain ⟨hb1, hb2, ce, hce, hcp⟩ := ih3 off e he j hj
          refine ⟨by omega, ?_, ?_⟩
          · simp only [List.length_cons]
            omega
          · have hji : j - i = (j - (i + 1)) + 1 := by omega
            rw [hji, List.getElem?_cons_succ]
            refine ⟨ce, hce, ?_⟩
            have hn : (i + 1) + off = i + (off + 1) := by omega
            rw [hn] at hcp
            exact hcp
theorem buildF_segOK : ∀ (p : Option Nat) (i : Nat) (cs : List RawNode) (l : List Entry),
    buildF p i cs = .ok l → SegOK i p (childIdxs i cs) l
  | _, _, [], l, h => by
    simp only [buildF, Except.ok.injEq] at h
    subst h
    refine ⟨?_, ?_, ?_⟩ <;> simp [childIdxs]
  | p, i, c :: cs, l, h => by
    rw [buildF] at h
    cases h1 : buildN p i c with
    | error e => rw [h1] at h; cases h
    | ok l1 =>
      rw [h1] at h
      cases h2 : buildF p (i + sizeR c) cs with
      | error e => rw [h2] at h; cases h
      | ok l2 =>
        rw [h2] at h
        cases h
        have len1 : l1.length = sizeR c := buildN_length p i c l1 h1
        have hc1 : 1 ≤ sizeR c := sizeR_pos c
        obtain ⟨ia1, ia2, ia3⟩ := buildN_segOK p i c l1 h1
        obtain ⟨ib1, ib2, ib3⟩ := buildF_segOK p (i + sizeR c) cs l2 h2
        refine ⟨?_, ?_, ?_⟩
        · intro j hj
          simp only [childIdxs, List.mem_cons] at hj
          rcases hj with rfl | hj
          · obtain ⟨e, he, hp⟩ := ia1 j (by simp)
            refine ⟨e, ?_, hp⟩
            rw [List.getElem?_append_left (by omega)]
            exact he
          · obtain ⟨e, he, hp⟩ := ib1 j hj
            have hge := mem_childIdxs_ge hj
            refine ⟨e, ?_, hp⟩
            rw [List.getElem?_append_right (by omega), len1]
            have hn : j - i - sizeR c = j - (i + sizeR c) := by omega
            rw [hn]
            exact he
        · intro off e he
          by_cases hoff : off < l1.length
          · rw [List.getElem?_append_left hoff] at he
            rcases ia2 off e he with ⟨hmem, hpar⟩ | ⟨q, pe, hpar, hq1, hq2, hget, hcnt⟩
            · simp only [List.mem_singleton] at hmem
              exact Or.inl ⟨by rw [hmem]; simp [childIdxs], hpar⟩
            · refine Or.inr ⟨q, pe, hpar, hq1, hq2, ?_, hcnt⟩
              rw [List.getElem?_append_left (by omega)]
              exact hget
          · push_neg at hoff
            rw [List.getElem?_append_right hoff] at he
            rcases ib2 (off - l1.length) e he with ⟨hmem, hpar⟩ | ⟨q, pe, hpar, hq1, hq2, hget, hcnt⟩
            · refine Or.inl ⟨?_, hpar⟩
              have hn : i + off = (i + sizeR c) + (off - l1.length) := by omega
              rw [hn]
              simp only [childIdxs, List.mem_cons]
              exact Or.inr hmem
            · refine Or.inr ⟨q, pe, hpar, by omega, by omega, ?_, ?_⟩
              · rw [List.getElem?_append_right (by omega : l1.length ≤ q - i)]
                have hn : q - i - l1.length = q - (i + sizeR c) := by omega
                rw [hn]
                exact hget
              · have hn : i + off = (i + sizeR c) + (off - l1.length) := by omega
                rw [hn]
                exact hcnt
        · intro off e he j hj
          by_cases hoff : off < l1.length
          · rw [List.getElem?_append_left hoff] at he
            obtain ⟨hb1, hb2, ce, hce, hcp⟩ := ia3 off e he j hj
            refine ⟨hb1, ?_, ?_⟩
            · simp only [List.length_append]
              omega
            · refine ⟨ce, ?_, hcp⟩
              rw [List.getElem?_append_left (by omega)]
              exact hce
          · push_neg at hoff
            rw [List.getElem?_append_right hoff] at he
            obtain ⟨hb1, hb2, ce, hce, hcp⟩ := ib3 (off - l1.length) e he j hj
            refine ⟨by omega, ?_, ?_⟩
            · simp only [List.length_append]
              omega
            · refine ⟨ce, ?_, ?_⟩
              · rw [List.getElem?_append_right (by omega : l1.length ≤ j - i)]
                have hn : j - i - l1.length = j - (i + sizeR c) := by omega
                rw [hn]
                exact hce
              · have hn : (i + sizeR c) + (off - l1.length) = i + off := by omega
                rw [hn] at hcp
                exact hcp
end

theorem preOrderN_cons (n : RawNode) : ∃ t, preOrderN n = n :: t := by
  cases n with
  | mk d ns => cases ns <;> exact ⟨_, rfl⟩

/-- C2: the claim says `fromJSON` never raises on an input whose leaf
records omit the `nodes` field.  The code does raise: the callback it
passes to `preOrder` iterates `n.nodes` without the guard `preOrder`
itself uses, so visiting any record without a `nodes` field throws a
`TypeError`.  This theorem evaluates the builder at such an input — a
single leaf record with no `nodes` field, exactly the shape the
unit-test fixture of the repository itself uses for its `By`/`It` leaves. -/
theorem fromJSON_missing_nodes_field_raises :
    fromJSON [RawNode.mk ⟨"It", "does a thing", 0, 10, true, false, false⟩ none] =
      .error () := rfl

/-- C6: for every input on which the builder returns, the length of the
flat list is the total record count of the forest, its order is the
pre-order visitation computed by the `preOrder` function of the source,
and its first element is the first root (arena index 0, carrying the
data of the first root). -/
theorem fromJSON_flat_is_preorder (rs : List RawNode) (o : Outline)
    (h : fromJSON rs = .ok o) :
    o.flat.length = sizeF rs ∧
    o.flat.map Entry.data = (preOrderF rs).map RawNode.data ∧
    (∀ r rs2, rs = r :: rs2 →
      (o.flat.map Entry.data)[0]? = some r.data ∧ o.nested[0]? = some 0) := by
  unfold fromJSON at h
  cases hb : buildF none 0 rs with
  | error e => rw [hb] at h; cases h
  | ok flat0 =>
    rw [hb] at h
    cases h
    refine ⟨buildF_length none 0 rs flat0 hb, buildF_data none 0 rs flat0 hb, ?_⟩
    intro r rs2 hrs
    subst hrs
    constructor
    · rw [buildF_data none 0 _ flat0 hb]
      obtain ⟨t, ht⟩ := preOrderN_cons r
      simp [preOrderF, ht]
    · simp [childIdxs]

/-- C6 witness: the guarantees evaluated on a concrete two-root forest
(a container with one child, then a second root; total count 3,
pre-order `a, b, c`, first flat element the first root). -/
theorem fromJSON_flat_is_preorder_witness :
    ∃ o, fromJSON
        [RawNode.mk ⟨"Describe", "a", 0, 20, false, false, false⟩
          (some [RawNode.mk ⟨"It", "b", 2, 9, true, false, false⟩ (some [])]),
         RawNode.mk ⟨"It", "c", 21, 30, true, false, false⟩ (some [])] = .ok o ∧
      o.flat.length = sizeF
        [RawNode.mk ⟨"Describe", "a", 0, 20, false, false, false⟩
          (some [RawNode.mk ⟨"It", "b", 2, 9, true, false, false⟩ (some [])]),
         RawNode.mk ⟨"It", "c", 21, 30, true, false, false⟩ (some [])] ∧
      o.flat.map Entry.data = (preOrderF
        [RawNode.mk ⟨"Describe", "a", 0, 20, false, false, false⟩
          (some [RawNode.mk ⟨"It", "b", 2, 9, true, false, false⟩ (some [])]),
         RawNode.mk ⟨"It", "c", 21, 30, true, false, false⟩ (some [])]).map RawNode.data ∧
      (o.flat.map Entry.data)[0]? =
        some ⟨"Describe", "a", 0, 20, false, false, false⟩ ∧
      o.nested[0]? = some 0 := by
  have h := fromJSON_flat_is_preorder
    [RawNode.mk ⟨"Describe", "a", 0, 20, false, false, false⟩
      (some [RawNode.mk ⟨"It", "b", 2, 9, true, false, false⟩ (some [])]),
     RawNode.mk ⟨"It", "c", 21, 30, true, false, false⟩ (some [])]
    ⟨[0, 2],
     [⟨⟨"Describe", "a", 0, 20, false, false, false⟩, [1], none⟩,
      ⟨⟨"It", "b", 2, 9, true, false, false⟩, [], some 0⟩,
      ⟨⟨"It", "c", 21, 30, true, false, false⟩, [], none⟩]⟩ rfl
  obtain ⟨h1, h2, h3⟩ := h
  obtain ⟨h4, h5⟩ := h3 _ _ rfl
  exact ⟨_, rfl, h1, h2, h4, h5⟩

/-- C7: after building, every children pointer of an arena entry points
at an entry whose `parent` is that very entry (reference equality is
arena-index equality), every root entry has no `parent`, and every
entry with a `parent` occurs exactly once in the children list of that parent
list. -/
theorem fromJSON_parent_backlinks (rs : List RawNode) (o : Outline)
    (h : fromJSON rs = .ok o) :
    (∀ (off : Nat) (e : Entry), o.flat[off]? = some e → ∀ j ∈ e.nodes,
      ∃ ce : Entry, o.flat[j]? = some ce ∧ ce.parent = some off) ∧
    (∀ r ∈ o.nested, ∃ e : Entry, o.flat[r]? = some e ∧ e.parent = none) ∧
    (∀ (j : Nat) (e : Entry) (q : Nat), o.flat[j]? = some e → e.parent = some q →
      ∃ pe : Entry, o.flat[q]? = some pe ∧ List.count j pe.nodes = 1) := by
  unfold fromJSON at h
  cases hb : buildF none 0 rs with
  | error e => rw [hb] at h; cases h
  | ok flat0 =>
    rw [hb] at h
    cases h
    obtain ⟨s1, s2, s3⟩ := buildF_segOK none 0 rs flat0 hb
    refine ⟨?_, ?_, ?_⟩
    · intro off e he j hj
      obtain ⟨_, _, ce, hce, hcp⟩ := s3 off e he j hj
      rw [Nat.sub_zero] at hce
      rw [Nat.zero_add] at hcp
      exact ⟨ce, hce, hcp⟩
    · intro r hr
      obtain ⟨e, he, hp⟩ := s1 r hr
      rw [Nat.sub_zero] at he
      exact ⟨e, he, hp⟩
    · intro j e q he hq
      rcases s2 j e he with ⟨_, hpar⟩ | ⟨q2, pe, hpar, _, _, hget, hcnt⟩
      · rw [hq] at hpar; cases hpar
      · rw [hq] at hpar
        injection hpar with hqq
        subst hqq
        rw [Nat.sub_zero] at hget
        rw [Nat.zero_add] at hcnt
        exact ⟨pe, hget, hcnt⟩

/-- C7 witness: parent back-links evaluated on a concrete forest with
one container holding two children. -/
theorem fromJSON_parent_backlinks_witness :
    ∃ o, fromJSON
        [RawNode.mk ⟨"Describe", "outer", 0, 50, false, false, false⟩
          (some [RawNode.mk ⟨"It", "one", 5, 20, true, false, false⟩ (some []),
                 RawNode.mk ⟨"It", "two", 21, 40, true, false, false⟩ (some [])])] =
      .ok o ∧
      (∀ (off : Nat) (e : Entry), o.flat[off]? = some e → ∀ j ∈ e.nodes,
        ∃ ce : Entry, o.flat[j]? = some ce ∧ ce.parent = some off) ∧
      (∀ r ∈ o.nested, ∃ e : Entry, o.flat[r]? = some e ∧ e.parent = none) ∧
      (∀ (j : Nat) (e : Entry) (q : Nat), o.flat[j]? = some e → e.parent = some q →
        ∃ pe : Entry, o.flat[q]? = some pe ∧ List.count j pe.nodes = 1) := by
  have h := fromJSON_parent_backlinks
    [RawNode.mk ⟨"Describe", "outer", 0, 50, false, false, false⟩
      (some [RawNode.mk ⟨"It", "one", 5, 20, true, false, false⟩ (some []),
             RawNode.mk ⟨"It", "two", 21, 40, true, false, false⟩ (some [])])]
    ⟨[0],
     [⟨⟨"Describe", "outer", 0, 50, false, false, false⟩, [1, 2], none⟩,
      ⟨⟨"It", "one", 5, 20, true, false, false⟩, [], some 0⟩,
      ⟨⟨"It", "two", 21, 40, true, false, false⟩, [], some 0⟩]⟩ rfl
  exact ⟨_, rfl, h⟩

/-! ## Lemmas for the diagnostic classifier -/

theorem strIndexOfAux_self (pat s : List Char) (i : Nat)
    (h : pat.isPrefixOf s = true) : strIndexOfAux pat s i = (i : Int) := by
  cases s <;> simp [strIndexOfAux, h]

/-- C9: a message that begins with the diagnostic text (in particular
one exactly equal to it) is rejected by `isGinkgoImportsNotFoundError`
(because `indexOf` returns `0` and the source tests `> 0`); the
classifier accepts a message only when the diagnostic occurs at a
strictly positive index. -/
theorem importsNotFound_at_index_zero_rejected :
    (∀ m : String, ginkgoImportsNotFoundError.data.isPrefixOf m.data = true →
      isGinkgoImportsNotFoundError (some m) = false) ∧
    (∀ msg : GinkgoError, isGinkgoImportsNotFoundError msg = true →
      ∃ m, msg = some m ∧ 0 < strIndexOf m ginkgoImportsNotFoundError) := by
  constructor
  · intro m hp
    have hm : ¬ (m = "") := by
      intro he
      subst he
      have hp2 : ginkgoImportsNotFoundError.data.isPrefixOf ([] : List Char) = true := hp
      have hfalse : ginkgoImportsNotFoundError.data.isPrefixOf ([] : List Char) = false := by
        decide
      rw [hfalse] at hp2
      cases hp2
    have hz : strIndexOf m ginkgoImportsNotFoundError = 0 :=
      strIndexOfAux_self _ _ 0 hp
    simp [isGinkgoImportsNotFoundError, hm, hz]
  · intro msg h
    cases msg with
    | none => cases h
    | some m =>
      refine ⟨m, rfl, ?_⟩
      by_cases hm : m = ""
      · simp [isGinkgoImportsNotFoundError, hm] at h
      · simp only [isGinkgoImportsNotFoundError, if_neg hm] at h
        exact of_decide_eq_true h

/-- C9 witness: a message exactly equal to the diagnostic is rejected;
a message holding the diagnostic at index 2 is accepted. -/
theorem importsNotFound_at_index_zero_rejected_witness :
    isGinkgoImportsNotFoundError (some ginkgoImportsNotFoundError) = false ∧
    (∃ m, (some ("x " ++ ginkgoImportsNotFoundError) : GinkgoError) = some m ∧
      0 < strIndexOf m ginkgoImportsNotFoundError) :=
  ⟨importsNotFound_at_index_zero_rejected.1 ginkgoImportsNotFoundError (by decide),
   importsNotFound_at_index_zero_rejected.2 (some ("x " ++ ginkgoImportsNotFoundError))
     (by decide)⟩

/-! ## Claims about the view-state machine -/

/-- C8: a change to a defined editor without a view column is ignored
entirely (state untouched, no refresh fired); every other change —
another main editor or no editor at all — re-binds the editor, clears
the cached roots and notifies subscribers. -/
theorem onActiveEditorChanged_primary_filter (s : ProviderState) :
    (∀ ed : Editor, ed.viewColumn = none →
      onActiveEditorChanged s (some ed) = (s, false)) ∧
    (∀ ed : Editor, ed.viewColumn ≠ none →
      onActiveEditorChanged s (some ed) =
        ({ s with editor := some ed, roots := [] }, true)) ∧
    onActiveEditorChanged s none = ({ s with editor := none, roots := [] }, true) := by
  refine ⟨?_, ?_, rfl⟩
  · intro ed h
    simp [onActiveEditorChanged, isMainEditor, h]
  · intro ed h
    cases hv : ed.viewColumn with
    | none => exact absurd hv h
    | some v => simp [onActiveEditorChanged, isMainEditor, hv]

/-- C8 witness: the three behaviours at concrete states — a diff-style
editor with no view column is ignored; a main editor and the no-editor
case invalidate and notify. -/
theorem onActiveEditorChanged_primary_filter_witness :
    onActiveEditorChanged
        ⟨some ⟨⟨"file:a.go", "go"⟩, some 1⟩, [], none, none, none, some .onType, 100, 500⟩
        (some ⟨⟨"diff:x", "go"⟩, none⟩) =
      (⟨some ⟨⟨"file:a.go", "go"⟩, some 1⟩, [], none, none, none, some .onType, 100, 500⟩,
       false) ∧
    onActiveEditorChanged
        ⟨some ⟨⟨"file:a.go", "go"⟩, some 1⟩, [], none, none, none, some .onType, 100, 500⟩
        (some ⟨⟨"file:b.go", "go"⟩, some 2⟩) =
      (⟨some ⟨⟨"file:b.go", "go"⟩, some 2⟩, [], none, none, none, some .onType, 100, 500⟩,
       true) ∧
    onActiveEditorChanged
        ⟨some ⟨⟨"file:a.go", "go"⟩, some 1⟩, [], none, none, none, some .onType, 100, 500⟩
        none =
      (⟨none, [], none, none, none, some .onType, 100, 500⟩, true) :=
  ⟨(onActiveEditorChanged_primary_filter _).1 _ rfl,
   (onActiveEditorChanged_primary_filter _).2.1 _ (by simp),
   (onActiveEditorChanged_primary_filter _).2.2⟩

/-- C10: a successful fetch whose root list is empty is never cached:
the cache-presence test is `roots.length === 0`, so the state after the
request equals the state before it, and any subsequent request invokes
the parser again. -/
theorem getChildren_empty_fetch_never_cached (s : ProviderState) (ed : Editor)
    (outline : VOutline)
    (h1 : s.editor = some ed) (h2 : ed.document.languageId = "go")
    (h3 : s.roots = []) (h4 : outline.nested = []) :
    (getChildren s none (.ok outline)).parserInvoked = true ∧
    (getChildren s none (.ok outline)).result = some [] ∧
    (getChildren s none (.ok outline)).state = s ∧
    (∀ (element : Option GinkgoNode) (fetch2 : Except GinkgoError VOutline),
      (getChildren (getChildren s none (.ok outline)).state element fetch2).parserInvoked
        = true) := by
  obtain ⟨se, sr, sn, st, sd, sl, sdelay, sth⟩ := s
  simp only at h1 h3
  subst h1
  subst h3
  have key : getChildren
      ⟨some ed, [], sn, st, sd, sl, sdelay, sth⟩ none (.ok outline) =
      ⟨⟨some ed, [], sn, st, sd, sl, sdelay, sth⟩, some [], true, false⟩ := by
    simp [getChildren, h2, h4]
  refine ⟨by rw [key], by rw [key], by rw [key], ?_⟩
  intro element fetch2
  rw [key]
  cases fetch2 with
  | error e => simp [getChildren, h2]
  | ok o2 => simp [getChildren, h2]

/-- C10 witness: an empty successful fetch against a concrete state,
followed by a second request that fetches again. -/
theorem getChildren_empty_fetch_never_cached_witness :
    (getChildren ⟨some ⟨⟨"file:a.go", "go"⟩, some 1⟩, [], none, none, none,
        some .onType, 100, 500⟩ none (.ok ⟨[], []⟩)).parserInvoked = true ∧
    (getChildren ⟨some ⟨⟨"file:a.go", "go"⟩, some 1⟩, [], none, none, none,
        some .onType, 100, 500⟩ none (.ok ⟨[], []⟩)).result = some [] ∧
    (getChildren ⟨some ⟨⟨"file:a.go", "go"⟩, some 1⟩, [], none, none, none,
        some .onType, 100, 500⟩ none (.ok ⟨[], []⟩)).state =
      ⟨some ⟨⟨"file:a.go", "go"⟩, some 1⟩, [], none, none, none,
        some .onType, 100, 500⟩ ∧
    (getChildren (getChildren ⟨some ⟨⟨"file:a.go", "go"⟩, some 1⟩, [], none, none, none,
        some .onType, 100, 500⟩ none (.ok ⟨[], []⟩)).state none
        (.ok ⟨[], []⟩)).parserInvoked = true := by
  have h := getChildren_empty_fetch_never_cached
    ⟨some ⟨⟨"file:a.go", "go"⟩, some 1⟩, [], none, none, none, some .onType, 100, 500⟩
    ⟨⟨"file:a.go", "go"⟩, some 1⟩ ⟨[], []⟩ rfl rfl rfl rfl
  exact ⟨h.1, h.2.1, h.2.2.1, h.2.2.2 none (.ok ⟨[], []⟩)⟩

/-- C1: when the parser fetch fails with the framework-not-found
diagnostic (recognized by `isGinkgoImportsNotFoundError`), the
spec-modelled `outlineFromDoc` wrapper converts it into an empty
outline, so `getChildren` shows no error notification, leaves the
cache empty, and answers the tree with an empty list; the quick pick
likewise presents an empty item list.  A failure that is not the
recognized diagnostic is surfaced as an error notification with an
`undefined` result — the two failures are distinguished. -/
theorem frameworkNotFound_presents_empty (s : ProviderState) (ed : Editor)
    (e : GinkgoError)
    (h1 : s.editor = some ed) (h2 : ed.document.languageId = "go")
    (h3 : s.roots = []) (h4 : isGinkgoImportsNotFoundError e = true) :
    (getChildren s none (outlineFromDocSpec (.error e))).errorNotificationShown = false ∧
    (getChildren s none (outlineFromDocSpec (.error e))).state.roots = [] ∧
    (getChildren s none (outlineFromDocSpec (.error e))).result = some [] ∧
    fromTextEditor ed (outlineFromDocSpec (.error e)) = some [] ∧
    (∀ (e2 : GinkgoError) (element : Option GinkgoNode),
      isGinkgoImportsNotFoundError e2 = false →
      (getChildren s element (outlineFromDocSpec (.error e2))).errorNotificationShown = true ∧
      (getChildren s element (outlineFromDocSpec (.error e2))).result = none) := by
  have hwrap : outlineFromDocSpec (.error e) = .ok ⟨[], []⟩ := by
    simp [outlineFromDocSpec, h4]
  obtain ⟨se, sr, sn, st, sd, sl, sdelay, sth⟩ := s
  simp only at h1 h3
  subst h1
  subst h3
  rw [hwrap]
  have key : getChildren
      ⟨some ed, [], sn, st, sd, sl, sdelay, sth⟩ none (.ok ⟨[], []⟩) =
      ⟨⟨some ed, [], sn, st, sd, sl, sdelay, sth⟩, some [], true, false⟩ := by
    simp [getChildren, h2]
  refine ⟨by rw [key], by rw [key], by rw [key], ?_, ?_⟩
  · simp [fromTextEditor, h2]
  · intro e2 element h5
    have hwrap2 : outlineFromDocSpec (.error e2) = .error e2 := by
      simp [outlineFromDocSpec, h5]
    rw [hwrap2]
    simp [getChildren, h2]

/-- C1 witness: a concrete error whose message holds the diagnostic at
a positive index is silently presented as an empty outline, while a
concrete generic error produces the notification. -/
theorem frameworkNotFound_presents_empty_witness :
    isGinkgoImportsNotFoundError
      (some ("x " ++ ginkgoImportsNotFoundError)) = true ∧
    GetChildrenResult.errorNotificationShown
      (getChildren ⟨some ⟨⟨"file:a.go", "go"⟩, some 1⟩, [], none, none, none,
        some .onType, 100, 500⟩ none
        (outlineFromDocSpec (.error (some ("x " ++ ginkgoImportsNotFoundError))))) = false ∧
    GetChildrenResult.result
      (getChildren ⟨some ⟨⟨"file:a.go", "go"⟩, some 1⟩, [], none, none, none,
        some .onType, 100, 500⟩ none
        (outlineFromDocSpec (.error (some ("x " ++ ginkgoImportsNotFoundError))))) = some [] ∧
    fromTextEditor ⟨⟨"file:a.go", "go"⟩, some 1⟩
      (outlineFromDocSpec (.error (some ("x " ++ ginkgoImportsNotFoundError)))) = some [] ∧
    GetChildrenResult.errorNotificationShown
      (getChildren ⟨some ⟨⟨"file:a.go", "go"⟩, some 1⟩, [], none, none, none,
        some .onType, 100, 500⟩ none
        (outlineFromDocSpec (.error (some "exec failed")))) = true := by
  have h := frameworkNotFound_presents_empty
    ⟨some ⟨⟨"file:a.go", "go"⟩, some 1⟩, [], none, none, none, some .onType, 100, 500⟩
    ⟨⟨"file:a.go", "go"⟩, some 1⟩
    (some ("x " ++ ginkgoImportsNotFoundError)) rfl rfl rfl (by decide)
  exact ⟨by decide, h.1, h.2.2.1, h.2.2.2.1,
    (h.2.2.2.2 (some "exec failed") none (by decide)).1⟩

/-- C4 counterexample: the claim quantifies over all timestamps, but the
truthiness presence-test `if (this.lastClickedTime && ...)` of the source
treats a recorded time of `0` as no prior activation.  Activating the
same node at `t0 = 0` and `t1 = 1` under threshold `5` satisfies
`t1 - t0 < 5`, yet the second activation is classified Highlight, not
Navigate as the claim requires. -/
theorem clickTreeItem_zero_timestamp_cex :
    (clickTreeItem
      (clickTreeItem
        ⟨some ⟨⟨"file:a.go", "go"⟩, some 1⟩, [], none, none, none, some .onType, 100, 5⟩
        (.mk "It" "x" 1 2 true false false []) 0).1
      (.mk "It" "x" 1 2 true false false []) 1).2 = some .highlight ∧
    ((1 : Int) - 0 < 5) :=
  ⟨rfl, by decide⟩

/-- C4 (amended): provided the timestamp of the first activation is nonzero
(the truthiness test treats time `0` as no prior activation), a second
activation with the same `(start, end)` key — value equality, the nodes
need not be the same object — is Navigate exactly when strictly less
than the threshold elapsed; a different key is always Highlight; after
every classification the recorded state becomes the current node key
and timestamp, so a Navigate (at a nonzero time) arms a subsequent
Navigate. -/
theorem clickTreeItem_classification (s : ProviderState) (ed : Editor)
    (N N2 : GinkgoNode) (t0 t1 : Int)
    (hed : s.editor = some ed) (h0 : s.lastClickedTime = none) (hnz : t0 ≠ 0) :
    (clickTreeItem s N t0).2 = some .highlight ∧
    ((clickTreeItem s N t0).1.lastClickedNode = some N ∧
     (clickTreeItem s N t0).1.lastClickedTime = some t0) ∧
    (N.start = N2.start ∧ N.«end» = N2.«end» →
      ((clickTreeItem (clickTreeItem s N t0).1 N2 t1).2 = some .navigate ↔
        t1 - t0 < s.doubleClickThreshold)) ∧
    (¬ (N.start = N2.start ∧ N.«end» = N2.«end») →
      (clickTreeItem (clickTreeItem s N t0).1 N2 t1).2 = some .highlight) ∧
    ((clickTreeItem (clickTreeItem s N t0).1 N2 t1).1.lastClickedNode = some N2 ∧
     (clickTreeItem (clickTreeItem s N t0).1 N2 t1).1.lastClickedTime = some t1) ∧
    (∀ t2 : Int, t1 ≠ 0 → N.start = N2.start ∧ N.«end» = N2.«end» →
      t1 - t0 < s.doubleClickThreshold → t2 - t1 < s.doubleClickThreshold →
      (clickTreeItem (clickTreeItem (clickTreeItem s N t0).1 N2 t1).1 N2 t2).2 =
        some .navigate) := by
  obtain ⟨se, sr, sn, st, sd, sl, sdelay, sth⟩ := s
  simp only at hed h0
  subst hed
  subst h0
  refine ⟨rfl, ⟨rfl, rfl⟩, ?_, ?_, ⟨rfl, rfl⟩, ?_⟩
  · rintro ⟨hs, he⟩
    have hb : (t0 != 0) = true := by simp [bne_iff_ne, hnz]
    simp only [clickTreeItem, wasRecentlyClicked, hs, he, beq_self_eq_true,
      Bool.and_self, Bool.true_and, hb]
    by_cases ht : t1 - t0 < sth
    · simp [ht]
    · simp [ht]
  · intro hne
    have hb : (N.start == N2.start && N.«end» == N2.«end») = false := by
      by_cases hs : N.start = N2.start
      · have he : ¬ N.«end» = N2.«end» := fun he => hne ⟨hs, he⟩
        simp [he]
      · simp [hs]
    simp [clickTreeItem, wasRecentlyClicked, hb]
  · rintro t2 h1nz ⟨hs, he⟩ hlt1 hlt2
    have hb : (t1 != 0) = true := by simp [bne_iff_ne, h1nz]
    simp [clickTreeItem, wasRecentlyClicked, hb, hlt2]

/-- C4 witness: with nonzero timestamps and threshold 5, a first
activation highlights; re-activating a node with equal `(start, end)`
but different labels (value equality, not identity) 2ms later
navigates; and 1ms after that Navigate, the same key navigates again
(the Navigate armed the next one). -/
theorem clickTreeItem_classification_witness :
    (clickTreeItem
      ⟨some ⟨⟨"file:a.go", "go"⟩, some 1⟩, [], none, none, none, some .onType, 100, 5⟩
      (.mk "It" "x" 1 2 true false false []) 10).2 = some .highlight ∧
    ((clickTreeItem
      (clickTreeItem
        ⟨some ⟨⟨"file:a.go", "go"⟩, some 1⟩, [], none, none, none, some .onType, 100, 5⟩
        (.mk "It" "x" 1 2 true false false []) 10).1
      (.mk "It" "renamed" 1 2 false false false []) 12).2 = some .navigate ↔
      (12 : Int) - 10 < 5) ∧
    (clickTreeItem
      (clickTreeItem
        (clickTreeItem
          ⟨some ⟨⟨"file:a.go", "go"⟩, some 1⟩, [], none, none, none, some .onType, 100, 5⟩
          (.mk "It" "x" 1 2 true false false []) 10).1
        (.mk "It" "renamed" 1 2 false false false []) 12).1
      (.mk "It" "renamed" 1 2 false false false []) 13).2 = some .navigate := by
  have h := clickTreeItem_classification
    ⟨some ⟨⟨"file:a.go", "go"⟩, some 1⟩, [], none, none, none, some .onType, 100, 5⟩
    ⟨⟨"file:a.go", "go"⟩, some 1⟩
    (.mk "It" "x" 1 2 true false false []) (.mk "It" "renamed" 1 2 false false false [])
    10 12 rfl rfl (by decide)
  exact ⟨h.1, h.2.2.1 ⟨rfl, rfl⟩,
    h.2.2.2.2.2 13 (by decide) ⟨rfl, rfl⟩ (by decide) (by decide)⟩

/-! ## Lemmas for the change-triggering policy -/

theorem fireTimerIfDue_listener (s : ProviderState) (t : Nat) :
    (fireTimerIfDue s t).1.updateListener = s.updateListener := by
  unfold fireTimerIfDue
  cases s.documentChangedTimer with
  | none => rfl
  | some d => by_cases hd : d ≤ t <;> simp [hd]

theorem stepEvent_onSave_change (s : ProviderState) (uri : String) (n t : Nat)
    (hl : s.updateListener = some .onSave) :
    stepEvent s (.change uri n t) = fireTimerIfDue s t := by
  have hne : (fireTimerIfDue s t).1.updateListener = some UpdateOn.onSave := by
    rw [fireTimerIfDue_listener]; exact hl
  simp [stepEvent, hne]

/-- Under an `onSave` subscription, a run of change events produces no
refresh beyond the one a previously-pending debounce timer was already
scheduled to fire. -/
theorem runEvents_onSave_changes :
    ∀ (evs : List DocEvent) (s : ProviderState),
      s.updateListener = some .onSave →
      (∀ e ∈ evs, e.isChange = true) →
      (runEvents s evs).2 = pendingFires s.documentChangedTimer := by
  intro evs
  induction evs with
  | nil =>
    intro s hl hc
    simp only [runEvents, flushTimer, pendingFires]
    cases s.documentChangedTimer <;> rfl
  | cons e es ih =>
    intro s hl hc
    have hce : e.isChange = true := hc e (List.mem_cons_self e es)
    have hcs : ∀ x ∈ es, x.isChange = true :=
      fun x hx => hc x (List.mem_cons_of_mem e hx)
    cases e with
    | save _ _ => simp [DocEvent.isChange] at hce
    | configure _ _ => simp [DocEvent.isChange] at hce
    | change uri n t =>
      have hstep := stepEvent_onSave_change s uri n t hl
      simp only [runEvents, hstep]
      cases hd : s.documentChangedTimer with
      | none =>
        have hf : fireTimerIfDue s t = (s, []) := by simp [fireTimerIfDue, hd]
        rw [hf]
        simp only [List.nil_append]
        rw [ih s hl hcs, hd]
      | some d =>
        by_cases hdt : d ≤ t
        · have hf : fireTimerIfDue s t =
              ({ s with documentChangedTimer := none }, [d]) := by
            simp [fireTimerIfDue, hd, hdt]
          rw [hf]
          have hrec := ih { s with documentChangedTimer := none } hl hcs
          simp only [pendingFires] at hrec
          simp [hrec, pendingFires, hd]
        · have hf : fireTimerIfDue s t = (s, []) := by simp [fireTimerIfDue, hd, hdt]
          rw [hf]
          simp only [List.nil_append]
          rw [ih s hl hcs, hd]

/-- C3 counterexample: with `onType`, delay 100, an edit at time 0
schedules the debounce refresh for time 100; switching to `onSave` at
time 50 — before the deadline, with no save in the trace — does not
cancel it: the refresh still fires at 100, where the claim requires no
refresh at all. -/
theorem setUpdateOn_pending_timer_cex :
    (runEvents
      ⟨some ⟨⟨"file:a.go", "go"⟩, some 1⟩, [], none, none, none, some .onType, 100, 500⟩
      [DocEvent.change "file:a.go" 1 0, DocEvent.configure .onSave 50]).2 = [100] ∧
    ([100] : List Nat) ≠ [] :=
  ⟨rfl, by simp⟩

/-- C3 (amended): switching `updateOn` from `onType` to `onSave`
disposes the change-event subscription, so no subsequent change event
schedules or fires anything — but it does not cancel an
already-pending debounce timer: that one refresh still fires at its
already-scheduled deadline, and apart from it no refresh occurs for
any following run of change events (no save). -/
theorem setUpdateOn_onSave_keeps_pending_timer (s : ProviderState) (t : Nat)
    (evs : List DocEvent) (hc : ∀ e ∈ evs, e.isChange = true) :
    (runEvents s (DocEvent.configure .onSave t :: evs)).2 =
      pendingFires s.documentChangedTimer := by
  have hl : (setUpdateOn (fireTimerIfDue s t).1 .onSave).updateListener =
      some UpdateOn.onSave := rfl
  simp only [runEvents, stepEvent]
  cases hd : s.documentChangedTimer with
  | none =>
    have hf : fireTimerIfDue s t = (s, []) := by simp [fireTimerIfDue, hd]
    rw [hf]
    have hrec := runEvents_onSave_changes evs (setUpdateOn s .onSave) rfl hc
    simp only [setUpdateOn] at hrec ⊢
    simp only [List.nil_append]
    rw [hrec]
    simp [hd, pendingFires]
  | some d =>
    by_cases hdt : d ≤ t
    · have hf : fireTimerIfDue s t = ({ s with documentChangedTimer := none }, [d]) := by
        simp [fireTimerIfDue, hd, hdt]
      rw [hf]
      have hrec := runEvents_onSave_changes evs
        (setUpdateOn { s with documentChangedTimer := none } .onSave) rfl hc
      simp only [setUpdateOn] at hrec ⊢
      simp [hrec, pendingFires, hd]
    · have hf : fireTimerIfDue s t = (s, []) := by simp [fireTimerIfDue, hd, hdt]
      rw [hf]
      have hrec := runEvents_onSave_changes evs (setUpdateOn s .onSave) rfl hc
      simp only [setUpdateOn] at hrec ⊢
      simp only [List.nil_append]
      rw [hrec]
      simp [hd, pendingFires]

/-- C3 witness: a state with a debounce timer pending for time 100 is
switched to `onSave` at time 50 and then sees one more change event at
time 60; exactly the already-pending refresh at 100 fires. -/
theorem setUpdateOn_onSave_keeps_pending_timer_witness :
    (runEvents
      ⟨some ⟨⟨"file:a.go", "go"⟩, some 1⟩, [], none, none, some 100, some .onType, 100, 500⟩
      (DocEvent.configure .onSave 50 :: [DocEvent.change "file:a.go" 1 60])).2 = [100] :=
  setUpdateOn_onSave_keeps_pending_timer
    ⟨some ⟨⟨"file:a.go", "go"⟩, some 1⟩, [], none, none, some 100, some .onType, 100, 500⟩
    50 [DocEvent.change "file:a.go" 1 60] (by decide)

theorem debounce_aux (uri : String) :
    ∀ (ps : List (Nat × Nat)) (s : ProviderState) (ed : Editor) (prev : Nat),
      s.updateListener = some .onType →
      s.editor = some ed → ed.document.uri = uri →
      s.documentChangedTimer = some (prev + s.updateOnTypeDelay) →
      s.roots = [] →
      (∀ p ∈ ps, p.2 ≠ 0) →
      spacedEdits s.updateOnTypeDelay prev (ps.map Prod.fst) = true →
      (runEvents s (editEvents uri ps)).2 =
        [(ps.map Prod.fst).getLastD prev + s.updateOnTypeDelay] ∧
      (runEvents s (editEvents uri ps)).1.roots = [] := by
  intro ps
  induction ps with
  | nil =>
    intro s ed prev hl hed huri hd hr hn hsp
    simp [editEvents, runEvents, flushTimer, hd, hr]
  | cons p ps ih =>
    intro s ed prev hl hed huri hd hr hn hsp
    obtain ⟨t, n⟩ := p
    simp only [List.map_cons] at hsp
    rw [spacedEdits] at hsp
    simp only [Bool.and_eq_true, decide_eq_true_eq] at hsp
    obtain ⟨⟨hpt, htd⟩, hsp2⟩ := hsp
    have hn0 : n ≠ 0 := hn (t, n) (List.mem_cons_self _ _)
    have hnd : ¬ (prev + s.updateOnTypeDelay ≤ t) := by omega
    have hf : fireTimerIfDue s t = (s, []) := by simp [fireTimerIfDue, hd, hnd]
    have hact : isDocumentForActiveEditor s uri = true := by
      simp [isDocumentForActiveEditor, hed, huri]
    have hdoc : onDocumentChanged s uri n t =
        { s with roots := [], documentChangedTimer := some (t + s.updateOnTypeDelay) } := by
      simp [onDocumentChanged, hact, hn0]
    have ihh := ih { s with roots := [], documentChangedTimer := some (t + s.updateOnTypeDelay) } ed t hl hed huri rfl rfl (fun q hq => hn q (List.mem_cons_of_mem _ hq)) hsp2
    have hcons : editEvents uri ((t, n) :: ps) = .change uri n t :: editEvents uri ps := rfl
    have hstep : stepEvent s (.change uri n t) =
        ({ s with roots := [], documentChangedTimer := some (t + s.updateOnTypeDelay) },
          ([] : List Nat)) := by
      simp only [stepEvent, hf]
      rw [if_pos (show (s, ([] : List Nat)).1.updateListener = some UpdateOn.onType from hl)]
      rw [hdoc]
    rw [hcons]
    simp only [runEvents, hstep]
    simp only [List.nil_append]
    refine ⟨?_, ihh.2⟩
    rw [ihh.1]
    simp only [List.map_cons, List.getLastD_cons]

/-- C5: under `onType` with no pending timer, a run of qualifying edits
to the active document, each spaced less than the delay after the
previous one, produces exactly one refresh notification, scheduled one
delay after the last edit (each edit cancels and restarts the single
pending timer), and leaves the cache invalidated; and an edit event
with zero content changes is a complete no-op — no cache invalidation
and no timer restart. -/
theorem onType_debounce_single_refresh (s : ProviderState) (ed : Editor) (uri : String)
    (t0 n0 : Nat) (rest : List (Nat × Nat))
    (hl : s.updateListener = some .onType)
    (hed : s.editor = some ed) (huri : ed.document.uri = uri)
    (hd : s.documentChangedTimer = none)
    (hn0 : n0 ≠ 0) (hns : ∀ p ∈ rest, p.2 ≠ 0)
    (hsp : spacedEdits s.updateOnTypeDelay t0 (rest.map Prod.fst) = true) :
    ((runEvents s (editEvents uri ((t0, n0) :: rest))).2 =
      [(rest.map Prod.fst).getLastD t0 + s.updateOnTypeDelay] ∧
     (runEvents s (editEvents uri ((t0, n0) :: rest))).1.roots = []) ∧
    (∀ (s2 : ProviderState) (uri2 : String) (t : Nat),
      onDocumentChanged s2 uri2 0 t = s2) := by
  constructor
  · have hf : fireTimerIfDue s t0 = (s, []) := by simp [fireTimerIfDue, hd]
    have hact : isDocumentForActiveEditor s uri = true := by
      simp [isDocumentForActiveEditor, hed, huri]
    have hdoc : onDocumentChanged s uri n0 t0 =
        { s with roots := [], documentChangedTimer := some (t0 + s.updateOnTypeDelay) } := by
      simp [onDocumentChanged, hact, hn0]
    have hstep : stepEvent s (.change uri n0 t0) =
        ({ s with roots := [], documentChangedTimer := some (t0 + s.updateOnTypeDelay) },
          ([] : List Nat)) := by
      simp only [stepEvent, hf]
      rw [if_pos (show (s, ([] : List Nat)).1.updateListener = some UpdateOn.onType from hl)]
      rw [hdoc]
    have ihh := debounce_aux uri rest { s with roots := [], documentChangedTimer := some (t0 + s.updateOnTypeDelay) } ed t0 hl hed huri rfl rfl hns hsp
    have hcons : editEvents uri ((t0, n0) :: rest) =
        .change uri n0 t0 :: editEvents uri rest := rfl
    rw [hcons]
    simp only [runEvents, hstep]
    simp only [List.nil_append]
    exact ⟨ihh.1, ihh.2⟩
  · intro s2 uri2 t
    simp [onDocumentChanged]

/-- C5 witness: three qualifying edits at times 0, 50, 90 under delay
100 yield exactly one refresh, at time 190 = last edit + delay, with
the cache invalidated; a zero-change event at time 42 leaves the state
untouched. -/
theorem onType_debounce_single_refresh_witness :
    (runEvents
      ⟨some ⟨⟨"file:a.go", "go"⟩, some 1⟩, [], none, none, none, some .onType, 100, 500⟩
      (editEvents "file:a.go" [(0, 1), (50, 1), (90, 2)])).2 = [190] ∧
    (runEvents
      ⟨some ⟨⟨"file:a.go", "go"⟩, some 1⟩, [], none, none, none, some .onType, 100, 500⟩
      (editEvents "file:a.go" [(0, 1), (50, 1), (90, 2)])).1.roots = [] ∧
    onDocumentChanged
      ⟨some ⟨⟨"file:a.go", "go"⟩, some 1⟩, [], none, none, none, some .onType, 100, 500⟩
      "file:a.go" 0 42 =
      ⟨some ⟨⟨"file:a.go", "go"⟩, some 1⟩, [], none, none, none, some .onType, 100, 500⟩ := by
  have h := onType_debounce_single_refresh
    ⟨some ⟨⟨"file:a.go", "go"⟩, some 1⟩, [], none, none, none, some .onType, 100, 500⟩
    ⟨⟨"file:a.go", "go"⟩, some 1⟩ "file:a.go" 0 1 [(50, 1), (90, 2)]
    rfl rfl rfl rfl (by decide) (by decide) (by decide)
  exact ⟨h.1.1, h.1.2,
    h.2 ⟨some ⟨⟨"file:a.go", "go"⟩, some 1⟩, [], none, none, none, some .onType, 100, 500⟩
      "file:a.go" 42⟩
